import Mathlib

/-!
# Verification of the building-map color-detection core

Shallow embedding of the algorithmic core of `building-map-app`
(`src/app/flood-fill-test/page.tsx`): the color classifier, the pixel
clustering engine, the region-to-polygon converter, the building-detector
orchestration, the slippy-map coordinate transform, and the interactive
flood-fill engine.

Modelling conventions, shared by all sections:

* Canvas byte buffers (`ImageData.data`, a `Uint8ClampedArray`) are
  `List Nat`; an out-of-range JavaScript read yields `undefined`, modelled
  as `Option.none`; an out-of-range write is a no-op, which is exactly
  `List.set`'s behaviour; in-range writes clamp to 255 (`clamp8`).
* JavaScript `Math.sqrt d <= t` on a nonnegative integer `d` is embedded as
  `0 ≤ t ∧ (d : ℚ) ≤ t ^ 2`, which is equivalent over the reals (both sides
  are monotone in `d`, and a negative `t` can never bound a square root);
  tolerances and distance thresholds are rationals.
* A strict-equality test `u === v` where `u` may be `undefined` is `jsEq`:
  it is `false` whenever `u` is `undefined`.
* The two `while` loops (flood fill, BFS clustering) are embedded with an
  explicit fuel argument returning `Option`; `none` means the fuel ran out.
  The termination theorems prove the fuel chosen by the top-level wrappers
  always suffices, so the wrappers never return `none`.
-/

namespace BuildingMap

/-! ## Color classifier (main page, lines 773–815)

`BUILDING_COLORS`, `colorSimilarity` and `isBuildingColor` as used by the
building detector. Channels are integers (canvas bytes are 0–255, but the
functions are total in the source as well); the similarity metric is the
Manhattan distance on (r,g,b). Alpha is not an input of the source function
and hence not of the model. -/

structure RGB where
  r : Int
  g : Int
  b : Int
deriving DecidableEq, Repr

/-- The building reference palette of the detector page. -/
def BUILDING_COLORS_building : List RGB :=
  [⟨255, 230, 190⟩, ⟨254, 229, 189⟩, ⟨255, 231, 191⟩]

/-- The boundary reference palette of the detector page. -/
def BUILDING_COLORS_boundary : List RGB :=
  [⟨255, 178, 128⟩, ⟨255, 212, 169⟩, ⟨255, 135, 75⟩]

/-- Manhattan distance on (r,g,b): sum of absolute channel differences. -/
def colorSimilarity (c1 c2 : RGB) : Int :=
  (c1.r - c2.r).natAbs + (c1.g - c2.g).natAbs + (c1.b - c2.b).natAbs

/-- `isBuildingColor(r, g, b, tolerance = 50)`: the building palette is
scanned first with an early return, then the boundary palette; the for-loop
with early return is `List.any`. -/
def isBuildingColor (r g b : Int) (tolerance : ℚ := 50) : String :=
  let color : RGB := ⟨r, g, b⟩
  if BUILDING_COLORS_building.any
      (fun bc => decide ((colorSimilarity color bc : ℚ) ≤ tolerance)) then
    "building"
  else if BUILDING_COLORS_boundary.any
      (fun bc => decide ((colorSimilarity color bc : ℚ) ≤ tolerance)) then
    "boundary"
  else
    "none"

/-! ## Pixel clustering engine (`clusterPixels`, lines 818–855)

Pixels are `Int × Int` pairs. The source iterates over the input array,
skipping pixels whose `"x,y"` key is already in the `visited` set, and runs
a breadth-first traversal (`queue.shift()` pops the front, `queue.push`
appends): the current pixel is marked visited and appended to the cluster,
then every not-yet-visited input pixel within Euclidean distance
`maxDistance` is appended to the queue. Only the inner `while` loop needs
fuel; the outer loop is structural recursion on the input list. -/

abbrev Px := Int × Int

/-- Squared Euclidean distance between two pixels. -/
def dist2 (p q : Px) : Int :=
  (p.1 - q.1) ^ 2 + (p.2 - q.2) ^ 2

/-- `Math.sqrt(dist2) <= maxDistance`, embedded without the square root. -/
def withinDist (p q : Px) (maxDistance : ℚ) : Bool :=
  decide (0 ≤ maxDistance ∧ ((dist2 p q : ℤ) : ℚ) ≤ maxDistance ^ 2)

/-- The inner `while (queue.length > 0)` loop of `clusterPixels`.
Returns the grown cluster and the updated visited set, or `none` if the
fuel runs out (shown never to happen for the fuel used by `clusterPixels`). -/
def bfsLoop (pixels : List Px) (maxDistance : ℚ) :
    Nat → List Px → List Px → List Px → Option (List Px × List Px)
  | _, [], visited, cluster => some (cluster, visited)
  | 0, _ :: _, _, _ => none
  | fuel + 1, c :: rest, visited, cluster =>
    if c ∈ visited then
      bfsLoop pixels maxDistance fuel rest visited cluster
    else
      let visited' := c :: visited
      let nbrs := pixels.filter fun q =>
        decide (q ∉ visited') && withinDist c q maxDistance
      bfsLoop pixels maxDistance fuel (rest ++ nbrs) visited' (cluster ++ [c])

/-- Fuel that always suffices for `bfsLoop` started on a single seed
(`bfsLoop_total`). -/
def bfsFuel (pixels : List Px) : Nat :=
  pixels.length * (pixels.length + 1) + 2

/-- The outer `for (const pixel of pixels)` loop of `clusterPixels`:
`remaining` ranges over (a suffix of) the input list. -/
def clusterGo (pixels : List Px) (maxDistance : ℚ) :
    List Px → List Px → Option (List (List Px))
  | [], _ => some []
  | p :: ps, visited =>
    if p ∈ visited then
      clusterGo pixels maxDistance ps visited
    else
      match bfsLoop pixels maxDistance (bfsFuel pixels) [p] visited [] with
      | none => none
      | some (cluster, visited') =>
        if cluster.isEmpty then
          clusterGo pixels maxDistance ps visited'
        else
          match clusterGo pixels maxDistance ps visited' with
          | none => none
          | some cs => some (cluster :: cs)

/-- `clusterPixels(pixels, maxDistance)`. -/
def clusterPixels (pixels : List Px) (maxDistance : ℚ) :
    Option (List (List Px)) :=
  clusterGo pixels maxDistance pixels []

/-! ## Flood fill engine (flood-fill page, lines 97–199)

`floodFill(imageData, startX, startY, targetColor, fillColor, tolerance)`:
stack-based 4-connected fill. `Array.prototype.pop` takes the *back* of the
JavaScript array, so the list head models the top of the stack and the four
`push`es appear in reverse order. The `targetColor` parameter is unused in
the source and kept (unused) here. The seed's alpha byte is read by the
source into `startColor.a` but never compared; the model therefore keeps
only the (r,g,b) triple of the start color. Reads at a JavaScript index
outside the `Uint8ClampedArray` give `undefined` (`none` here): any
similarity or strict-equality test involving such a read is `false`, which
`isSimilarColor`/`jsEq` reproduce. In-range writes clamp to 0–255, and
component values of a `Color` are already nonnegative (`Nat`). -/

structure Color where
  r : Nat
  g : Nat
  b : Nat
  a : Nat
deriving DecidableEq, Repr

structure ImageBuffer where
  width : Nat
  height : Nat
  data : List Nat
deriving DecidableEq, Repr

/-- `Uint8ClampedArray` stores clamped bytes. -/
def clamp8 (v : Nat) : Nat := min v 255

/-- A JavaScript typed-array read `data[i]`: `undefined` out of range. -/
def jsByte (data : List Nat) (i : Int) : Option Nat :=
  if 0 ≤ i then data[i.toNat]? else none

/-- Strict equality `u === v` where `u` may be `undefined`. -/
def jsEq (o : Option Nat) (v : Nat) : Bool := o == some v

/-- Read the (r,g,b) bytes of the pixel starting at byte index `i`. -/
def readRGB (data : List Nat) (i : Int) : Option (Nat × Nat × Nat) :=
  match jsByte data i, jsByte data (i + 1), jsByte data (i + 2) with
  | some r, some g, some b => some (r, g, b)
  | _, _, _ => none

/-- `isSimilarColor(color1, color2, tolerance)`: Euclidean RGB distance
(embedded squared) at most `tolerance`. A comparison involving an
out-of-range (`undefined`) channel is NaN-contaminated in JavaScript and
hence `false`; here the `none` cases return `false`. -/
def isSimilarColor (c1 c2 : Option (Nat × Nat × Nat)) (tolerance : ℚ) : Bool :=
  match c1, c2 with
  | some (r1, g1, b1), some (r2, g2, b2) =>
    decide (0 ≤ tolerance ∧
      ((((r1 : Int) - r2) ^ 2 + ((g1 : Int) - g2) ^ 2 + ((b1 : Int) - b2) ^ 2
          : ℤ) : ℚ) ≤ tolerance ^ 2)
  | _, _ => false

/-- Overwrite the four bytes of the pixel starting at byte index `idx` with
`fillColor` (clamped, as `Uint8ClampedArray` stores do). -/
def writePx (data : List Nat) (idx : Nat) (c : Color) : List Nat :=
  ((((data.set idx (clamp8 c.r)).set (idx + 1) (clamp8 c.g)).set
      (idx + 2) (clamp8 c.b)).set (idx + 3) (clamp8 c.a))

/-- Pixel `p` (in row-major order) already shows the fill color's (r,g,b).
This is the loop's "already filled" test applied at pixel `p`. -/
def isFillPx (data : List Nat) (c : Color) (p : Nat) : Bool :=
  readRGB data ((p * 4 : Nat) : Int) == some (c.r, c.g, c.b)

/-- Number of pixels of the `w × h` grid not yet showing the fill color:
the termination measure of the fill loop. -/
def unfilled (w h : Nat) (c : Color) (data : List Nat) : Nat :=
  ((Finset.range (w * h)).filter fun p => isFillPx data c p = false).card

/-- The `while (stack.length > 0)` loop of `floodFill`. -/
def floodLoop (w h : Nat) (startColor : Option (Nat × Nat × Nat))
    (fillColor : Color) (tolerance : ℚ) :
    Nat → List Nat → List Px → Nat → Option (Nat × List Nat)
  | _, data, [], processed => some (processed, data)
  | 0, _, _ :: _, _ => none
  | fuel + 1, data, (x, y) :: rest, processed =>
    if x < 0 ∨ (w : Int) ≤ x ∨ y < 0 ∨ (h : Int) ≤ y then
      floodLoop w h startColor fillColor tolerance fuel data rest processed
    else
      let idx : Nat := (y.toNat * w + x.toNat) * 4
      let currentColor := readRGB data (idx : Int)
      if isSimilarColor currentColor startColor tolerance = false then
        floodLoop w h startColor fillColor tolerance fuel data rest processed
      else if currentColor == some (fillColor.r, fillColor.g, fillColor.b) then
        floodLoop w h startColor fillColor tolerance fuel data rest processed
      else
        floodLoop w h startColor fillColor tolerance fuel
          (writePx data idx fillColor)
          ((x, y - 1) :: (x, y + 1) :: (x - 1, y) :: (x + 1, y) :: rest)
          (processed + 1)

/-- `floodFill`: reads the seed color, short-circuits when the seed already
equals the fill color on (r,g,b), otherwise runs the stack loop seeded with
the start coordinate. The fuel `5 * unfilled + 2` is proved sufficient
(`floodFill_isSome`) whenever the fill color is a genuine 0–255 color. -/
def floodFill (imageData : ImageBuffer) (startX startY : Int)
    (_targetColor fillColor : Color) (tolerance : ℚ) :
    Option (Nat × List Nat) :=
  let startIndex : Int := (startY * imageData.width + startX) * 4
  let startColor := readRGB imageData.data startIndex
  if jsEq (jsByte imageData.data startIndex) fillColor.r &&
      jsEq (jsByte imageData.data (startIndex + 1)) fillColor.g &&
      jsEq (jsByte imageData.data (startIndex + 2)) fillColor.b then
    some (0, imageData.data)
  else
    floodLoop imageData.width imageData.height startColor fillColor tolerance
      (5 * unfilled imageData.width imageData.height fillColor imageData.data
        + 2)
      imageData.data [(startX, startY)] 0

/-! ## Tile coordinate transform (lines 888–891, 949–950, 1026–1027)

The source computes in IEEE doubles with `Math.log/tan/cos/atan/sinh`; the
embedding idealizes these as the corresponding real functions, which is the
only faithful shallow embedding available for transcendental arithmetic.
`mercY` is the normalized Web-Mercator ordinate
`(1 - log(tan φ + 1/cos φ)/π)/2`. -/

/-- Normalized Mercator ordinate of a latitude (in degrees). -/
noncomputable def mercY (lat : ℝ) : ℝ :=
  (1 - Real.log (Real.tan (lat * Real.pi / 180) +
      1 / Real.cos (lat * Real.pi / 180)) / Real.pi) / 2

/-- Forward transform: `(lat, lon, zoom) ↦ (tileX, tileY, pixelX, pixelY)`
with `n = 2^zoom` tiles per axis and 256-pixel tiles, all four components
floored exactly as in the source. -/
noncomputable def geoToTile (lat lon : ℝ) (zoom : ℕ) : ℤ × ℤ × ℤ × ℤ :=
  let n : ℝ := 2 ^ zoom
  let tileX := ⌊(lon + 180) / 360 * n⌋
  let tileY := ⌊mercY lat * n⌋
  let pixelX := ⌊((lon + 180) / 360 * n - tileX) * 256⌋
  let pixelY := ⌊(mercY lat * n - tileY) * 256⌋
  (tileX, tileY, pixelX, pixelY)

/-- Inverse transform, longitude: `(tileX·256 + x)/(n·256)·360 − 180`. -/
noncomputable def tileToGeoLon (zoom : ℕ) (tileX x : ℤ) : ℝ :=
  ((tileX : ℝ) * 256 + (x : ℝ)) / ((2 : ℝ) ^ zoom * 256) * 360 - 180

/-- Inverse transform, latitude:
`(180/π)·atan(sinh(π(1 − 2(tileY·256 + y)/(n·256))))`. -/
noncomputable def tileToGeoLat (zoom : ℕ) (tileY y : ℤ) : ℝ :=
  180 / Real.pi * Real.arctan (Real.sinh (Real.pi *
    (1 - 2 * ((tileY : ℝ) * 256 + (y : ℝ)) / ((2 : ℝ) ^ zoom * 256))))

/-- One polygon corner, pixel space to geographic space; the source emits
GeoJSON `[lon, lat]` pairs. -/
noncomputable def pixelToGeo (zoom : ℕ) (tileX tileY : ℤ) (p : Px) : ℝ × ℝ :=
  (tileToGeoLon zoom tileX p.1, tileToGeoLat zoom tileY p.2)

/-! ## Region-to-polygon converter and detector (lines 858–880, 883–1079)

`detectBuildingsByColor` is modelled from the point where its external
effects are done: `fetched` is the outcome of the tile fetch and decode
(steps 1–2 of the orchestration; `none` covers network error, non-2xx and
undecodable bytes, all of which land in the `catch`/missing-`imageData`
paths), and `(zoom, tileX, tileY, pixelX, pixelY)` are the coordinates the
source computes from `(lat, lon)` with the forward transform modelled above
as `geoToTile`. Everything from the per-pixel scan onwards is embedded. -/

structure Bounds where
  minX : Int
  minY : Int
  maxX : Int
  maxY : Int
deriving DecidableEq, Repr

/-- `calculateBounds`: axis-aligned bounding box of a pixel list. The
source starts from `±Infinity` accumulators; on the nonempty lists it is
applied to this equals folding min/max from the first element, which is how
the model states it (the empty case is never reached). -/
def calculateBounds (pixels : List Px) : Bounds :=
  match pixels with
  | [] => ⟨0, 0, 0, 0⟩
  | p :: ps =>
    ps.foldl
      (fun b q => ⟨min b.minX q.1, min b.minY q.2, max b.maxX q.1,
        max b.maxY q.2⟩)
      ⟨p.1, p.2, p.1, p.2⟩

/-- `boundsToPolygon`: the four corners, closed by repeating the first. -/
def boundsToPolygon (b : Bounds) : List Px :=
  [(b.minX, b.minY), (b.maxX, b.minY), (b.maxX, b.maxY), (b.minX, b.maxY),
   (b.minX, b.minY)]

/-- One GeoJSON feature of the detector's output collection. The constant
`building`/`source` string properties are omitted; `featureId` is the
source's `id: index + 1`. -/
structure Feature where
  ring : List (ℝ × ℝ)
  featureId : Nat
  pixelCount : Nat

/-- The detector's result: JavaScript `null` or a feature collection. -/
inductive DetectResult where
  | nullResult
  | collection (features : List Feature)

/-- The geographic ring of one surviving cluster. -/
noncomputable def ringOf (zoom : ℕ) (tileX tileY : ℤ) (cluster : List Px) :
    List (ℝ × ℝ) :=
  (boundsToPolygon (calculateBounds cluster)).map (pixelToGeo zoom tileX tileY)

/-- The `for (const cluster of clusters)` polygon loop: clusters with fewer
than 5 pixels are skipped, the rest contribute their bounding-box ring. -/
noncomputable def buildPolygons (zoom : ℕ) (tileX tileY : ℤ) :
    List (List Px) → List (List (ℝ × ℝ))
  | [] => []
  | c :: cs =>
    if c.length < 5 then buildPolygons zoom tileX tileY cs
    else ringOf zoom tileX tileY c :: buildPolygons zoom tileX tileY cs

/-- `polygons.map((coordinates, index) => …)`: feature `index` carries
`id: index + 1` and `pixelCount: clusters[index]?.length || 0` — note the
index is the position in the *filtered* polygon list but is used to index
the *unfiltered* cluster list, exactly as in the source. -/
noncomputable def featuresFrom (clusters : List (List Px)) :
    Nat → List (List (ℝ × ℝ)) → List Feature
  | _, [] => []
  | i, ring :: rest =>
    ⟨ring, i + 1, ((clusters[i]?).map List.length).getD 0⟩ ::
      featuresFrom clusters (i + 1) rest

/-- The feature collection built from the cluster list. -/
noncomputable def buildFeatures (zoom : ℕ) (tileX tileY : ℤ)
    (clusters : List (List Px)) : List Feature :=
  featuresFrom clusters 0 (buildPolygons zoom tileX tileY clusters)

/-- Read byte `i` during the scan. The scan only touches in-range indices
of a well-formed `ImageData` (`data.length = 4·w·h`); on a malformed buffer
the JavaScript read is `undefined` and every palette comparison is `false`,
which coincides with the classification of the default `0` here (every
palette sample is ≥ 380 away in Manhattan distance from black, far above
the fixed scan tolerance of 50). -/
def byteD (data : List Nat) (i : Nat) : Nat := data.getD i 0

/-- Classification of the scan pixel `(x, y)` (default tolerance 50). -/
def classifyAt (img : ImageBuffer) (x y : Nat) : String :=
  let index := (y * img.width + x) * 4
  isBuildingColor (byteD img.data index) (byteD img.data (index + 1))
    (byteD img.data (index + 2))

/-- The double scan loop (`y` outer, `x` inner, both ascending), keeping
the pixels classified as `cls`. -/
def scanClass (img : ImageBuffer) (cls : String) : List Px :=
  (List.range img.height).foldr
    (fun y acc =>
      (List.range img.width).filterMap
        (fun x => if classifyAt img x y = cls then
            some ((x : Int), (y : Int)) else none) ++ acc)
    []

/-- `detectBuildingsByColor`, from the end of the fetch/decode (step 1–2)
onwards. Every failure path of the source is `return null`; the only other
outcome is the GeoJSON feature collection. The `clusterPixels … = none`
branch is required by the type but unreachable (`clusterPixels_isSome`). -/
noncomputable def detectBuildingsByColor (fetched : Option ImageBuffer)
    (zoom : ℕ) (tileX tileY : ℤ) (pixelX pixelY : Int) : DetectResult :=
  match fetched with
  | none => DetectResult.nullResult
  | some img =>
    let buildingPixels := scanClass img "building"
    if pixelX < 0 ∨ (img.width : Int) ≤ pixelX ∨
        pixelY < 0 ∨ (img.height : Int) ≤ pixelY then
      DetectResult.nullResult
    else
      let nearbyBuildingPixels :=
        buildingPixels.filter fun p => withinDist p (pixelX, pixelY) 30
      if nearbyBuildingPixels.isEmpty then
        DetectResult.nullResult
      else
        match clusterPixels nearbyBuildingPixels 3 with
        | none => DetectResult.nullResult
        | some clusters =>
          DetectResult.collection (buildFeatures zoom tileX tileY clusters)

end BuildingMap

namespace BuildingMap

example :
    clusterPixels [(0, 0), (0, 1), (7, 7)] 3 =
      some [[(0, 0), (0, 1)], [(7, 7)]] := by decide

example :
    (clusterPixels
        [(0, 0), (0, 1), (0, 2), (0, 3),
         (10, 0), (10, 1), (10, 2), (10, 3), (10, 4), (10, 5)] 3).map
      (fun cs => cs.map List.length) = some [4, 6] := by decide

-- spec §8 scenario: 4×4 all-white buffer, seed (0,0), red, tolerance 10.
example :
    (floodFill ⟨4, 4, List.replicate 64 255⟩ 0 0 ⟨0, 0, 0, 0⟩
        ⟨255, 0, 0, 255⟩ 10).map Prod.fst = some 16 := by decide

/-! # Color classifier theorems -/

theorem any_palette_iff (pal : List RGB) (c : RGB) (tol : ℚ) :
    (pal.any fun bc => decide ((colorSimilarity c bc : ℚ) ≤ tol)) = true ↔
      ∃ s ∈ pal, (colorSimilarity c s : ℚ) ≤ tol := by
  simp [List.any_eq_true]

/-- Claim C7: `isBuildingColor(r,g,b,tolerance)` returns `"building"` iff
some building-palette sample is within Manhattan distance `tolerance`,
otherwise `"boundary"` iff some boundary-palette sample is, otherwise
`"none"`; the building palette is checked first, and the tolerance defaults
to 50. (The alpha channel is not even an input of the source function.) -/
theorem isBuildingColor_spec (r g b : Int) (tol : ℚ) :
    (isBuildingColor r g b tol = "building" ↔
      ∃ s ∈ BUILDING_COLORS_building,
        (colorSimilarity ⟨r, g, b⟩ s : ℚ) ≤ tol) ∧
    (isBuildingColor r g b tol = "boundary" ↔
      (¬ ∃ s ∈ BUILDING_COLORS_building,
        (colorSimilarity ⟨r, g, b⟩ s : ℚ) ≤ tol) ∧
      ∃ s ∈ BUILDING_COLORS_boundary,
        (colorSimilarity ⟨r, g, b⟩ s : ℚ) ≤ tol) ∧
    (isBuildingColor r g b tol = "none" ↔
      (¬ ∃ s ∈ BUILDING_COLORS_building,
        (colorSimilarity ⟨r, g, b⟩ s : ℚ) ≤ tol) ∧
      ¬ ∃ s ∈ BUILDING_COLORS_boundary,
        (colorSimilarity ⟨r, g, b⟩ s : ℚ) ≤ tol) ∧
    isBuildingColor r g b = isBuildingColor r g b 50 := by
  refine ⟨?_, ?_, ?_, rfl⟩ <;>
    · unfold isBuildingColor
      dsimp only
      split_ifs with h1 h2 <;>
        simp_all [any_palette_iff, String.ext_iff]

/-- Instance of `isBuildingColor_spec` at a concrete color. -/
theorem isBuildingColor_spec_witness :
    isBuildingColor 255 230 190 5 = "building" ↔
      ∃ s ∈ BUILDING_COLORS_building,
        (colorSimilarity ⟨255, 230, 190⟩ s : ℚ) ≤ 5 :=
  (isBuildingColor_spec 255 230 190 5).1

/-! # Clustering theorems

The measure for the BFS loop is the number of distinct input pixels not yet
visited: every popped unvisited pixel shrinks it by one and can enqueue at
most `pixels.length` neighbours, so
`unvisitedCount · (pixels.length + 1) + queue.length` strictly drops. -/

/-- Distinct input pixels not yet in the visited set. -/
def unvisitedCount (pixels visited : List Px) : Nat :=
  (pixels.toFinset.filter fun p => p ∉ visited).card

theorem unvisitedCount_cons_lt {pixels visited : List Px} {c : Px}
    (hcp : c ∈ pixels) (hcv : c ∉ visited) :
    unvisitedCount pixels (c :: visited) < unvisitedCount pixels visited := by
  have hset : (pixels.toFinset.filter fun p => p ∉ c :: visited) =
      (pixels.toFinset.filter fun p => p ∉ visited).erase c := by
    ext q
    simp only [Finset.mem_filter, Finset.mem_erase, List.mem_cons,
      List.mem_toFinset]
    tauto
  have hmem : c ∈ pixels.toFinset.filter fun p => p ∉ visited := by
    simp [List.mem_toFinset, hcp, hcv]
  unfold unvisitedCount
  rw [hset]
  exact Finset.card_erase_lt_of_mem hmem

theorem unvisitedCount_le (pixels visited : List Px) :
    unvisitedCount pixels visited ≤ pixels.length :=
  le_trans (Finset.card_filter_le _ _) pixels.toFinset_card_le

/-- The fuel bound for the BFS loop: with
`unvisitedCount · (|pixels| + 1) + |queue| + 1` units of fuel the loop
always finishes. -/
theorem bfsLoop_isSome (pixels : List Px) (maxDistance : ℚ) :
    ∀ fuel queue visited cluster,
      (∀ q ∈ queue, q ∈ pixels) →
      unvisitedCount pixels visited * (pixels.length + 1) +
        queue.length + 1 ≤ fuel →
      (bfsLoop pixels maxDistance fuel queue visited cluster).isSome := by
  intro fuel
  induction fuel with
  | zero => intro queue visited cluster _ hf; omega
  | succ n ih =>
    intro queue visited cluster hq hf
    match queue with
    | [] => simp [bfsLoop]
    | c :: rest =>
      rw [bfsLoop]
      by_cases hc : c ∈ visited
      · simp only [hc, if_true]
        refine ih rest visited cluster (fun q hq' => hq q (List.mem_cons_of_mem _ hq')) ?_
        simp only [List.length_cons] at hf
        omega
      · simp only [hc, if_false]
        refine ih _ _ _ ?_ ?_
        · intro q hq'
          rcases List.mem_append.mp hq' with h | h
          · exact hq q (List.mem_cons_of_mem _ h)
          · exact (List.mem_filter.mp h).1
        · have hlt : unvisitedCount pixels (c :: visited) + 1 ≤
              unvisitedCount pixels visited :=
            unvisitedCount_cons_lt (hq c (List.mem_cons_self c rest)) hc
          have hnb : (pixels.filter fun q =>
              decide (q ∉ c :: visited) && withinDist c q maxDistance).length ≤
              pixels.length := List.length_filter_le _ _
          have hmul : (unvisitedCount pixels (c :: visited) + 1) *
              (pixels.length + 1) ≤
              unvisitedCount pixels visited * (pixels.length + 1) :=
            Nat.mul_le_mul_right _ hlt
          have hexp : (unvisitedCount pixels (c :: visited) + 1) *
              (pixels.length + 1) =
              unvisitedCount pixels (c :: visited) * (pixels.length + 1) +
                (pixels.length + 1) := by ring
          simp only [List.length_append, List.length_cons] at hf ⊢
          omega

/-- Invariants of one BFS run: the visited set only grows, every queued
pixel ends up visited, the cluster grows by exactly the newly visited
pixels, and every cluster member comes from the initial cluster, the
initial queue, or the input list. -/
theorem bfsLoop_invariants (pixels : List Px) (maxDistance : ℚ) :
    ∀ fuel queue visited cluster cl vis,
      bfsLoop pixels maxDistance fuel queue visited cluster = some (cl, vis) →
      (∀ v ∈ visited, v ∈ vis) ∧
      (∀ q ∈ queue, q ∈ vis) ∧
      (∀ p : Px, p ∈ cl ↔ p ∈ cluster ∨ (p ∈ vis ∧ p ∉ visited)) ∧
      (∀ p ∈ cl, p ∈ cluster ∨ p ∈ queue ∨ p ∈ pixels) := by
  intro fuel
  induction fuel with
  | zero =>
    intro queue visited cluster cl vis h
    match queue with
    | [] =>
      rw [bfsLoop] at h
      obtain ⟨h1, h2⟩ := Prod.mk.injEq .. ▸ Option.some.injEq .. ▸ h
      subst h1; subst h2
      refine ⟨fun v hv => hv, by simp, fun p => ?_, fun p hp => Or.inl hp⟩
      constructor
      · exact fun hp => Or.inl hp
      · rintro (hp | ⟨hv, hnv⟩)
        · exact hp
        · exact absurd hv hnv
    | q :: rest => rw [bfsLoop] at h; exact absurd h (by simp)
  | succ n ih =>
    intro queue visited cluster cl vis h
    match queue with
    | [] =>
      rw [bfsLoop] at h
      obtain ⟨h1, h2⟩ := Prod.mk.injEq .. ▸ Option.some.injEq .. ▸ h
      subst h1; subst h2
      refine ⟨fun v hv => hv, by simp, fun p => ?_, fun p hp => Or.inl hp⟩
      constructor
      · exact fun hp => Or.inl hp
      · rintro (hp | ⟨hv, hnv⟩)
        · exact hp
        · exact absurd hv hnv
    | c :: rest =>
      rw [bfsLoop] at h
      by_cases hc : c ∈ visited
      · rw [if_pos hc] at h
        obtain ⟨hA, hE, hB, hC⟩ := ih rest visited cluster cl vis h
        refine ⟨hA, ?_, hB, ?_⟩
        · intro q hq
          rcases List.mem_cons.mp hq with rfl | hq'
          · exact hA q hc
          · exact hE q hq'
        · intro p hp
          rcases hC p hp with h' | h' | h'
          · exact Or.inl h'
          · exact Or.inr (Or.inl (List.mem_cons_of_mem _ h'))
          · exact Or.inr (Or.inr h')
      · rw [if_neg hc] at h
        simp only at h
        obtain ⟨hA, hE, hB, hC⟩ := ih _ _ _ cl vis h
        have hcvis : c ∈ vis := hA c (List.mem_cons_self c visited)
        refine ⟨?_, ?_, ?_, ?_⟩
        · exact fun v hv => hA v (List.mem_cons_of_mem _ hv)
        · intro q hq
          rcases List.mem_cons.mp hq with rfl | hq'
          · exact hcvis
          · exact hE q (List.mem_append_left _ hq')
        · intro p
          rw [hB p]
          constructor
          · rintro (hp | ⟨hv, hnv⟩)
            · rcases List.mem_append.mp hp with hp' | hp'
              · exact Or.inl hp'
              · rcases List.mem_singleton.mp hp' with rfl
                exact Or.inr ⟨hcvis, hc⟩
            · refine Or.inr ⟨hv, fun hmem => hnv (List.mem_cons_of_mem _ hmem)⟩
          · rintro (hp | ⟨hv, hnv⟩)
            · exact Or.inl (List.mem_append_left _ hp)
            · by_cases hpc : p = c
              · subst hpc
                exact Or.inl (List.mem_append_right _ (List.mem_singleton.mpr rfl))
              · exact Or.inr ⟨hv, fun hmem =>
                  (List.mem_cons.mp hmem).elim hpc hnv⟩
        · intro p hp
          rcases hC p hp with h' | h' | h'
          · rcases List.mem_append.mp h' with h'' | h''
            · exact Or.inl h''
            · rcases List.mem_singleton.mp h'' with rfl
              exact Or.inr (Or.inl (List.mem_cons_self _ _))
          · rcases List.mem_append.mp h' with h'' | h''
            · exact Or.inr (Or.inl (List.mem_cons_of_mem _ h''))
            · exact Or.inr (Or.inr (List.mem_filter.mp h'').1)
          · exact Or.inr (Or.inr h')

/-- Invariants of the outer loop: every emitted cluster is nonempty,
consists of input pixels that were not yet visited when the loop started,
distinct clusters are disjoint, and every remaining pixel is either
already visited or lands in some emitted cluster. -/
theorem clusterGo_invariants (pixels : List Px) (maxDistance : ℚ) :
    ∀ remaining visited cs,
      (∀ q ∈ remaining, q ∈ pixels) →
      clusterGo pixels maxDistance remaining visited = some cs →
      (∀ c ∈ cs, c ≠ []) ∧
      (∀ c ∈ cs, ∀ p ∈ c, p ∈ pixels ∧ p ∉ visited) ∧
      List.Pairwise (fun c1 c2 => ∀ p : Px, p ∈ c1 → p ∉ c2) cs ∧
      (∀ p ∈ remaining, p ∈ visited ∨ ∃ c ∈ cs, p ∈ c) := by
  intro remaining
  induction remaining with
  | nil =>
    intro visited cs _ h
    rw [clusterGo] at h
    obtain rfl := (Option.some.injEq .. ▸ h).symm
    exact ⟨by simp, by simp, by simp, by simp⟩
  | cons p ps ih =>
    intro visited cs hrem h
    rw [clusterGo] at h
    by_cases hp : p ∈ visited
    · rw [if_pos hp] at h
      obtain ⟨g1, g2, g3, g4⟩ := ih visited cs (fun q hq =>
        hrem q (List.mem_cons_of_mem _ hq)) h
      refine ⟨g1, g2, g3, ?_⟩
      intro q hq
      rcases List.mem_cons.mp hq with rfl | hq'
      · exact Or.inl hp
      · exact g4 q hq'
    · rw [if_neg hp] at h
      rcases hbfs : bfsLoop pixels maxDistance (bfsFuel pixels) [p] visited []
        with _ | ⟨cluster, visited'⟩
      · rw [hbfs] at h; exact absurd h (by simp)
      rw [hbfs] at h
      dsimp only at h
      obtain ⟨hA, hE, hB, hC⟩ :=
        bfsLoop_invariants pixels maxDistance _ _ _ _ _ _ hbfs
      have hpvis : p ∈ visited' := hE p (List.mem_singleton.mpr rfl)
      have hpcluster : p ∈ cluster := (hB p).mpr (Or.inr ⟨hpvis, hp⟩)
      have hclmem : ∀ q ∈ cluster, q ∈ pixels := by
        intro q hq
        rcases hC q hq with h' | h' | h'
        · exact absurd h' (List.not_mem_nil q)
        · rcases List.mem_singleton.mp h' with rfl
          exact hrem _ (List.mem_cons_self _ _)
        · exact h'
      have hclvis : ∀ q : Px, q ∈ cluster → q ∈ visited' ∧ q ∉ visited := by
        intro q hq
        rcases (hB q).mp hq with h' | h'
        · exact absurd h' (List.not_mem_nil q)
        · exact h'
      by_cases hemp : cluster.isEmpty
      · exact absurd hpcluster (by simp [List.isEmpty_iff.mp hemp])
      rw [if_neg (by simp [hemp])] at h
      rcases hrec : clusterGo pixels maxDistance ps visited' with _ | cs'
      · rw [hrec] at h; exact absurd h (by simp)
      rw [hrec] at h
      obtain rfl := (Option.some.injEq .. ▸ h).symm
      obtain ⟨g1, g2, g3, g4⟩ := ih visited' cs' (fun q hq =>
        hrem q (List.mem_cons_of_mem _ hq)) hrec
      refine ⟨?_, ?_, ?_, ?_⟩
      · intro c hc
        rcases List.mem_cons.mp hc with rfl | hc'
        · exact fun hnil => by simp [hnil] at hpcluster
        · exact g1 c hc'
      · intro c hc q hq
        rcases List.mem_cons.mp hc with rfl | hc'
        · exact ⟨hclmem q hq, (hclvis q hq).2⟩
        · obtain ⟨hq1, hq2⟩ := g2 c hc' q hq
          exact ⟨hq1, fun hmem => hq2 (hA q hmem)⟩
      · refine List.pairwise_cons.mpr ⟨?_, g3⟩
        intro c' hc' q hq
        intro hq'
        exact (g2 c' hc' q hq').2 (hclvis q hq).1
      · intro q hq
        rcases List.mem_cons.mp hq with rfl | hq'
        · exact Or.inr ⟨cluster, List.mem_cons_self _ _, hpcluster⟩
        · rcases g4 q hq' with h' | ⟨c', hc', hqc'⟩
          · by_cases hqv : q ∈ visited
            · exact Or.inl hqv
            · exact Or.inr ⟨cluster, List.mem_cons_self _ _,
                (hB q).mpr (Or.inr ⟨h', hqv⟩)⟩
          · exact Or.inr ⟨c', List.mem_cons_of_mem _ hc', hqc'⟩

/-- The fuel `bfsFuel pixels` always suffices, so `clusterGo` (and with it
`clusterPixels`) never reports fuel exhaustion. -/
theorem clusterGo_isSome (pixels : List Px) (maxDistance : ℚ) :
    ∀ remaining visited,
      (∀ q ∈ remaining, q ∈ pixels) →
      (clusterGo pixels maxDistance remaining visited).isSome := by
  intro remaining
  induction remaining with
  | nil => intro visited _; simp [clusterGo]
  | cons p ps ih =>
    intro visited hrem
    rw [clusterGo]
    by_cases hp : p ∈ visited
    · rw [if_pos hp]
      exact ih visited (fun q hq => hrem q (List.mem_cons_of_mem _ hq))
    · rw [if_neg hp]
      have hbfs : (bfsLoop pixels maxDistance (bfsFuel pixels) [p] visited
          []).isSome := by
        refine bfsLoop_isSome pixels maxDistance _ _ _ _ ?_ ?_
        · intro q hq
          rcases List.mem_singleton.mp hq with rfl
          exact hrem _ (List.mem_cons_self _ _)
        · have hle : unvisitedCount pixels visited ≤ pixels.length :=
            unvisitedCount_le pixels visited
          have hmul : unvisitedCount pixels visited * (pixels.length + 1) ≤
              pixels.length * (pixels.length + 1) :=
            Nat.mul_le_mul_right _ hle
          simp only [bfsFuel, List.length_singleton]
          omega
      rcases Option.isSome_iff_exists.mp hbfs with ⟨⟨cluster, visited'⟩, hbfs'⟩
      rw [hbfs']
      have hrec := ih visited' (fun q hq => hrem q (List.mem_cons_of_mem _ hq))
      by_cases hemp : cluster.isEmpty
      · simpa [hemp] using hrec
      · rcases Option.isSome_iff_exists.mp hrec with ⟨cs', hrec'⟩
        simp [hemp, hrec']

theorem clusterPixels_isSome (pixels : List Px) (maxDistance : ℚ) :
    (clusterPixels pixels maxDistance).isSome :=
  clusterGo_isSome pixels maxDistance pixels [] (fun _ hq => hq)

/-- Claim C4: for every input pixel list and threshold, `clusterPixels`
returns a partition of the input coordinates: the union of the clusters is
exactly the input set, no pixel lies in two clusters, and every cluster is
nonempty. -/
theorem clusterPixels_partition (pixels : List Px) (maxDistance : ℚ) :
    ∃ cs, clusterPixels pixels maxDistance = some cs ∧
      (∀ p : Px, p ∈ pixels ↔ ∃ c ∈ cs, p ∈ c) ∧
      List.Pairwise (fun c1 c2 => ∀ p : Px, p ∈ c1 → p ∉ c2) cs ∧
      (∀ c ∈ cs, c ≠ []) := by
  rcases Option.isSome_iff_exists.mp (clusterPixels_isSome pixels maxDistance)
    with ⟨cs, hcs⟩
  obtain ⟨g1, g2, g3, g4⟩ := clusterGo_invariants pixels maxDistance pixels []
    cs (fun _ hq => hq) hcs
  refine ⟨cs, hcs, ?_, g3, g1⟩
  intro p
  constructor
  · intro hp
    rcases g4 p hp with h' | h'
    · exact absurd h' (List.not_mem_nil p)
    · exact h'
  · rintro ⟨c, hc, hpc⟩
    exact (g2 c hc p hpc).1

/-- Instance of `clusterPixels_partition` on a concrete input. -/
theorem clusterPixels_partition_witness :
    ∃ cs, clusterPixels [((0 : Int), (0 : Int)), (0, 1), (7, 7)] 3 = some cs ∧
      (∀ p : Px, p ∈ [((0 : Int), (0 : Int)), (0, 1), (7, 7)] ↔
        ∃ c ∈ cs, p ∈ c) ∧
      List.Pairwise (fun c1 c2 => ∀ p : Px, p ∈ c1 → p ∉ c2) cs ∧
      (∀ c ∈ cs, c ≠ []) :=
  clusterPixels_partition [((0 : Int), (0 : Int)), (0, 1), (7, 7)] 3

/-! # Flood fill theorems

The loop measure is `5 · unfilled + stack length`: a discarded pop costs 1,
a fill pays 5 from the `unfilled` count (the filled pixel now equals the
fill color on (r,g,b)) against 3 for the net stack growth. The `≤ 255`
hypotheses on the fill color's channels say it is a genuine `RGBColor`
(spec §3 restricts channels to 0–255, and the page's `hexToRgb` can only
produce such colors); without them the clamped write could store bytes that
never compare equal to the requested fill color, and the source loop indeed
livelocks in that situation. -/

theorem jsByte_natCast (data : List Nat) (i : Nat) :
    jsByte data (i : Int) = data[i]? := by
  unfold jsByte
  rw [if_pos (Int.natCast_nonneg i), Int.toNat_ofNat]

theorem readRGB_natCast (data : List Nat) (i : Nat) :
    readRGB data (i : Int) =
      match data[i]?, data[i + 1]?, data[i + 2]? with
      | some r, some g, some b => some (r, g, b)
      | _, _, _ => none := by
  unfold readRGB
  have h1 : ((i : Int) + 1) = ((i + 1 : Nat) : Int) := by push_cast; ring
  have h2 : ((i : Int) + 2) = ((i + 2 : Nat) : Int) := by push_cast; ring
  rw [h1, h2, jsByte_natCast, jsByte_natCast, jsByte_natCast]

theorem readRGB_eq_some_iff (data : List Nat) (i : Nat) (r g b : Nat) :
    readRGB data (i : Int) = some (r, g, b) ↔
      data[i]? = some r ∧ data[i + 1]? = some g ∧ data[i + 2]? = some b := by
  rw [readRGB_natCast]
  rcases h1 : data[i]? with _ | v1 <;> rcases h2 : data[i + 1]? with _ | v2 <;>
    rcases h3 : data[i + 2]? with _ | v3 <;> simp

theorem readRGB_isSome_lt {data : List Nat} {i : Nat} {v : Nat × Nat × Nat}
    (h : readRGB data (i : Int) = some v) : i + 2 < data.length := by
  rcases v with ⟨r, g, b⟩
  obtain ⟨-, -, h3⟩ := (readRGB_eq_some_iff data i r g b).mp h
  obtain ⟨hlt, -⟩ := List.getElem?_eq_some_iff.mp h3
  exact hlt

theorem writePx_length (data : List Nat) (idx : Nat) (c : Color) :
    (writePx data idx c).length = data.length := by
  simp [writePx]

theorem writePx_getElem?_untouched (data : List Nat) (idx : Nat) (c : Color)
    (j : Nat) (hj : j < idx ∨ idx + 3 < j) :
    (writePx data idx c)[j]? = data[j]? := by
  unfold writePx
  rw [List.getElem?_set_ne (by omega), List.getElem?_set_ne (by omega),
    List.getElem?_set_ne (by omega), List.getElem?_set_ne (by omega)]

theorem writePx_readRGB_self (data : List Nat) (idx : Nat) (c : Color)
    (h : idx + 2 < data.length) :
    readRGB (writePx data idx c) (idx : Int) =
      some (clamp8 c.r, clamp8 c.g, clamp8 c.b) := by
  have e0 : (writePx data idx c)[idx]? = some (clamp8 c.r) := by
    unfold writePx
    rw [List.getElem?_set_ne (by omega), List.getElem?_set_ne (by omega),
      List.getElem?_set_ne (by omega)]
    exact List.getElem?_set_eq_of_lt _ (by omega)
  have e1 : (writePx data idx c)[idx + 1]? = some (clamp8 c.g) := by
    unfold writePx
    rw [List.getElem?_set_ne (by omega), List.getElem?_set_ne (by omega)]
    exact List.getElem?_set_eq_of_lt _ (by simp [List.length_set]; omega)
  have e2 : (writePx data idx c)[idx + 2]? = some (clamp8 c.b) := by
    unfold writePx
    rw [List.getElem?_set_ne (by omega)]
    exact List.getElem?_set_eq_of_lt _ (by simp [List.length_set]; omega)
  rw [readRGB_natCast, e0, e1, e2]

theorem isFillPx_writePx_self (data : List Nat) (fc : Color) (q : Nat)
    (h : q * 4 + 2 < data.length)
    (hr : fc.r ≤ 255) (hg : fc.g ≤ 255) (hb : fc.b ≤ 255) :
    isFillPx (writePx data (q * 4) fc) fc q = true := by
  unfold isFillPx
  rw [writePx_readRGB_self data (q * 4) fc h]
  simp [clamp8, Nat.min_eq_left hr, Nat.min_eq_left hg, Nat.min_eq_left hb]

theorem isFillPx_writePx_ne (data : List Nat) (fc wc : Color) (p q : Nat)
    (hpq : p ≠ q) :
    isFillPx (writePx data (q * 4) wc) fc p = isFillPx data fc p := by
  unfold isFillPx
  rw [readRGB_natCast, readRGB_natCast,
    writePx_getElem?_untouched data (q * 4) wc (p * 4) (by omega),
    writePx_getElem?_untouched data (q * 4) wc (p * 4 + 1) (by omega),
    writePx_getElem?_untouched data (q * 4) wc (p * 4 + 2) (by omega)]

theorem unfilled_writePx_lt (w h : Nat) (fc : Color) (data : List Nat)
    (q : Nat) (hq : q < w * h) (hnf : isFillPx data fc q = false)
    (hin : q * 4 + 2 < data.length)
    (hr : fc.r ≤ 255) (hg : fc.g ≤ 255) (hb : fc.b ≤ 255) :
    unfilled w h fc (writePx data (q * 4) fc) < unfilled w h fc data := by
  unfold unfilled
  have hset : ((Finset.range (w * h)).filter
        fun p => isFillPx (writePx data (q * 4) fc) fc p = false) =
      ((Finset.range (w * h)).filter fun p => isFillPx data fc p = false).erase
        q := by
    ext p
    simp only [Finset.mem_filter, Finset.mem_erase, Finset.mem_range]
    constructor
    · rintro ⟨hp, hfill⟩
      by_cases hpq : p = q
      · subst hpq
        rw [isFillPx_writePx_self data fc p hin hr hg hb] at hfill
        exact absurd hfill (by simp)
      · rw [isFillPx_writePx_ne data fc fc p q hpq] at hfill
        exact ⟨hpq, hp, hfill⟩
    · rintro ⟨hpq, hp, hfill⟩
      rw [isFillPx_writePx_ne data fc fc p q hpq]
      exact ⟨hp, hfill⟩
  rw [hset]
  exact Finset.card_erase_lt_of_mem (by simp [Finset.mem_filter, hq, hnf])

theorem pixel_index_lt {w h : Nat} {x y : Int}
    (hbound : ¬(x < 0 ∨ (w : Int) ≤ x ∨ y < 0 ∨ (h : Int) ≤ y)) :
    y.toNat * w + x.toNat < w * h := by
  push_neg at hbound
  obtain ⟨hx0, hxw, hy0, hyh⟩ := hbound
  have hxw' : x.toNat < w := by
    have := Int.toNat_of_nonneg hx0
    omega
  have hyh' : y.toNat < h := by
    have := Int.toNat_of_nonneg hy0
    omega
  have h1 : (y.toNat + 1) * w ≤ h * w := Nat.mul_le_mul_right w hyh'
  have h2 : (y.toNat + 1) * w = y.toNat * w + w := by ring
  have h3 : h * w = w * h := by ring
  omega

theorem isSimilarColor_none (sc : Option (Nat × Nat × Nat)) (tol : ℚ) :
    isSimilarColor none sc tol = false := by
  unfold isSimilarColor
  rcases sc with _ | s <;> rfl

/-- Fuel bound for the fill loop: `5 · unfilled + |stack| + 1` units always
finish it, provided the fill color is a genuine byte color. -/
theorem floodLoop_isSome (w h : Nat) (sc : Option (Nat × Nat × Nat))
    (fc : Color) (tol : ℚ)
    (hr : fc.r ≤ 255) (hg : fc.g ≤ 255) (hb : fc.b ≤ 255) :
    ∀ fuel data stack cnt,
      5 * unfilled w h fc data + stack.length + 1 ≤ fuel →
      (floodLoop w h sc fc tol fuel data stack cnt).isSome := by
  intro fuel
  induction fuel with
  | zero =>
    intro data stack cnt hf
    match stack with
    | [] => simp [floodLoop]
    | _ :: _ =>
      simp only [List.length_cons] at hf
      omega
  | succ n ih =>
    intro data stack cnt hf
    match stack with
    | [] => simp [floodLoop]
    | (x, y) :: rest =>
      rw [floodLoop]
      simp only [List.length_cons] at hf
      by_cases hbound : x < 0 ∨ (w : Int) ≤ x ∨ y < 0 ∨ (h : Int) ≤ y
      · rw [if_pos hbound]
        exact ih data rest cnt (by omega)
      · rw [if_neg hbound]
        dsimp only
        by_cases hsim : isSimilarColor
            (readRGB data (((y.toNat * w + x.toNat) * 4 : Nat) : Int)) sc tol =
            false
        · rw [if_pos hsim]
          exact ih data rest cnt (by omega)
        · rw [if_neg hsim]
          by_cases hfill : (readRGB data (((y.toNat * w + x.toNat) * 4 : Nat) :
              Int) == some (fc.r, fc.g, fc.b)) = true
          · rw [if_pos hfill]
            exact ih data rest cnt (by omega)
          · rw [if_neg hfill]
            rcases hcur : readRGB data (((y.toNat * w + x.toNat) * 4 : Nat) :
                Int) with _ | v
            · rw [hcur, isSimilarColor_none] at hsim
              exact absurd rfl hsim
            have hlen : (y.toNat * w + x.toNat) * 4 + 2 < data.length :=
              readRGB_isSome_lt hcur
            have hnf : isFillPx data fc (y.toNat * w + x.toNat) = false := by
              unfold isFillPx
              rw [hcur]
              rw [hcur] at hfill
              simpa using hfill
            have hdec := unfilled_writePx_lt w h fc data
              (y.toNat * w + x.toNat) (pixel_index_lt hbound) hnf hlen hr hg hb
            refine ih _ _ _ ?_
            simp only [List.length_cons]
            omega

/-- Once a pixel shows the fill color's (r,g,b), it still does after any
number of further loop steps: writes only ever store the fill color. -/
theorem floodLoop_preserves_fill (w h : Nat) (sc : Option (Nat × Nat × Nat))
    (fc : Color) (tol : ℚ)
    (hr : fc.r ≤ 255) (hg : fc.g ≤ 255) (hb : fc.b ≤ 255) :
    ∀ fuel data stack cnt cfin dfin,
      floodLoop w h sc fc tol fuel data stack cnt = some (cfin, dfin) →
      ∀ p, isFillPx data fc p = true → isFillPx dfin fc p = true := by
  intro fuel
  induction fuel with
  | zero =>
    intro data stack cnt cfin dfin hloop p hp
    match stack with
    | [] =>
      rw [floodLoop] at hloop
      obtain ⟨-, h2⟩ := Prod.mk.injEq .. ▸ Option.some.injEq .. ▸ hloop
      exact h2 ▸ hp
    | _ :: _ => rw [floodLoop] at hloop; exact absurd hloop (by simp)
  | succ n ih =>
    intro data stack cnt cfin dfin hloop p hp
    match stack with
    | [] =>
      rw [floodLoop] at hloop
      obtain ⟨-, h2⟩ := Prod.mk.injEq .. ▸ Option.some.injEq .. ▸ hloop
      exact h2 ▸ hp
    | (x, y) :: rest =>
      rw [floodLoop] at hloop
      by_cases hbound : x < 0 ∨ (w : Int) ≤ x ∨ y < 0 ∨ (h : Int) ≤ y
      · rw [if_pos hbound] at hloop
        exact ih data rest cnt cfin dfin hloop p hp
      · rw [if_neg hbound] at hloop
        dsimp only at hloop
        by_cases hsim : isSimilarColor
            (readRGB data (((y.toNat * w + x.toNat) * 4 : Nat) : Int)) sc tol =
            false
        · rw [if_pos hsim] at hloop
          exact ih data rest cnt cfin dfin hloop p hp
        · rw [if_neg hsim] at hloop
          by_cases hfill : (readRGB data (((y.toNat * w + x.toNat) * 4 : Nat) :
              Int) == some (fc.r, fc.g, fc.b)) = true
          · rw [if_pos hfill] at hloop
            exact ih data rest cnt cfin dfin hloop p hp
          · rw [if_neg hfill] at hloop
            rcases hcur : readRGB data (((y.toNat * w + x.toNat) * 4 : Nat) :
                Int) with _ | v
            · rw [hcur, isSimilarColor_none] at hsim
              exact absurd rfl hsim
            have hlen : (y.toNat * w + x.toNat) * 4 + 2 < data.length :=
              readRGB_isSome_lt hcur
            refine ih _ _ _ cfin dfin hloop p ?_
            by_cases hpq : p = y.toNat * w + x.toNat
            · rw [hpq]
              exact isFillPx_writePx_self data fc _ hlen hr hg hb
            · rw [isFillPx_writePx_ne data fc fc p _ hpq]
              exact hp

/-- If the loop changed the buffer at all, some pixel went from
"not showing the fill (r,g,b)" to "showing it": no run of the loop changes
only alpha bytes. -/
theorem floodLoop_changes_rgb (w h : Nat) (sc : Option (Nat × Nat × Nat))
    (fc : Color) (tol : ℚ)
    (hr : fc.r ≤ 255) (hg : fc.g ≤ 255) (hb : fc.b ≤ 255) :
    ∀ fuel data stack cnt cfin dfin,
      floodLoop w h sc fc tol fuel data stack cnt = some (cfin, dfin) →
      dfin = data ∨
        ∃ p, isFillPx data fc p = false ∧ isFillPx dfin fc p = true := by
  intro fuel
  induction fuel with
  | zero =>
    intro data stack cnt cfin dfin hloop
    match stack with
    | [] =>
      rw [floodLoop] at hloop
      obtain ⟨-, h2⟩ := Prod.mk.injEq .. ▸ Option.some.injEq .. ▸ hloop
      exact Or.inl h2.symm
    | _ :: _ => rw [floodLoop] at hloop; exact absurd hloop (by simp)
  | succ n ih =>
    intro data stack cnt cfin dfin hloop
    match stack with
    | [] =>
      rw [floodLoop] at hloop
      obtain ⟨-, h2⟩ := Prod.mk.injEq .. ▸ Option.some.injEq .. ▸ hloop
      exact Or.inl h2.symm
    | (x, y) :: rest =>
      rw [floodLoop] at hloop
      by_cases hbound : x < 0 ∨ (w : Int) ≤ x ∨ y < 0 ∨ (h : Int) ≤ y
      · rw [if_pos hbound] at hloop
        exact ih data rest cnt cfin dfin hloop
      · rw [if_neg hbound] at hloop
        dsimp only at hloop
        by_cases hsim : isSimilarColor
            (readRGB data (((y.toNat * w + x.toNat) * 4 : Nat) : Int)) sc tol =
            false
        · rw [if_pos hsim] at hloop
          exact ih data rest cnt cfin dfin hloop
        · rw [if_neg hsim] at hloop
          by_cases hfill : (readRGB data (((y.toNat * w + x.toNat) * 4 : Nat) :
              Int) == some (fc.r, fc.g, fc.b)) = true
          · rw [if_pos hfill] at hloop
            exact ih data rest cnt cfin dfin hloop
          · rw [if_neg hfill] at hloop
            rcases hcur : readRGB data (((y.toNat * w + x.toNat) * 4 : Nat) :
                Int) with _ | v
            · rw [hcur, isSimilarColor_none] at hsim
              exact absurd rfl hsim
            have hlen : (y.toNat * w + x.toNat) * 4 + 2 < data.length :=
              readRGB_isSome_lt hcur
            have hnf : isFillPx data fc (y.toNat * w + x.toNat) = false := by
              unfold isFillPx
              rw [hcur]
              rw [hcur] at hfill
              simpa using hfill
            have hself := isFillPx_writePx_self data fc
              (y.toNat * w + x.toNat) hlen hr hg hb
            rcases ih _ _ _ cfin dfin hloop with hsame | ⟨p, hp1, hp2⟩
            · refine Or.inr ⟨y.toNat * w + x.toNat, hnf, ?_⟩
              rw [hsame]
              exact hself
            · refine Or.inr ⟨p, ?_, hp2⟩
              by_cases hpq : p = y.toNat * w + x.toNat
              · subst hpq
                exact absurd hself (by simp [hp1])
              · rw [isFillPx_writePx_ne data fc fc p _ hpq] at hp1
                exact hp1

/-- Claim C5: for every finite buffer, seed coordinate, fill color (a
genuine `RGBColor` with 0–255 channels, as the spec's data model defines
colors) and tolerance, `floodFill` terminates: the built-in fuel bound
`5 · unfilled + 2` always suffices, because each pixel is overwritten at
most once — after the write it equals the fill color and is discarded on
revisit. -/
theorem floodFill_terminates (img : ImageBuffer) (startX startY : Int)
    (targetColor fillColor : Color) (tolerance : ℚ)
    (hr : fillColor.r ≤ 255) (hg : fillColor.g ≤ 255)
    (hb : fillColor.b ≤ 255) :
    (floodFill img startX startY targetColor fillColor tolerance).isSome := by
  unfold floodFill
  dsimp only
  split_ifs with hE
  · simp
  · refine floodLoop_isSome img.width img.height _ fillColor tolerance
      hr hg hb _ _ _ _ ?_
    simp only [List.length_cons, List.length_nil]
    omega

/-- Instance of `floodFill_terminates` on a concrete buffer. -/
theorem floodFill_terminates_witness :
    (floodFill ⟨1, 1, [10, 10, 10, 255]⟩ 0 0 ⟨0, 0, 0, 0⟩ ⟨5, 6, 7, 8⟩
        0).isSome :=
  floodFill_terminates ⟨1, 1, [10, 10, 10, 255]⟩ 0 0 ⟨0, 0, 0, 0⟩ ⟨5, 6, 7, 8⟩
    0 (by decide) (by decide) (by decide)

/-- Claim C2 (counterexample): the source `floodFill` has no `InvalidSeed`
failure mode. A call whose seed (5,0) lies outside the 2×1 buffer *does*
succeed with a normal zero changed-pixel count and an untouched buffer,
contradicting the claim that an out-of-bounds seed is rejected as a
distinct failure. -/
theorem floodFill_oob_seed_succeeds :
    floodFill ⟨2, 1, [1, 2, 3, 4, 5, 6, 7, 8]⟩ 5 0 ⟨0, 0, 0, 0⟩ ⟨9, 9, 9, 9⟩
        50 = some (0, [1, 2, 3, 4, 5, 6, 7, 8]) := by decide

/-- Claim C2 (amended): `floodFill` always returns normally — there is no
failure mode at all. An out-of-bounds seed is popped once, discarded by the
bounds check, and the call returns 0 changed pixels with the buffer
unchanged, indistinguishable from a degenerate in-bounds fill. -/
theorem floodFill_no_failure_mode (img : ImageBuffer) (startX startY : Int)
    (targetColor fillColor : Color) (tolerance : ℚ)
    (hr : fillColor.r ≤ 255) (hg : fillColor.g ≤ 255)
    (hb : fillColor.b ≤ 255) :
    (floodFill img startX startY targetColor fillColor tolerance).isSome ∧
    ((startX < 0 ∨ (img.width : Int) ≤ startX ∨ startY < 0 ∨
        (img.height : Int) ≤ startY) →
      floodFill img startX startY targetColor fillColor tolerance =
        some (0, img.data)) := by
  refine ⟨floodFill_terminates img startX startY targetColor fillColor
    tolerance hr hg hb, ?_⟩
  intro hout
  unfold floodFill
  dsimp only
  split_ifs with hE
  · rfl
  · have hfuel : 5 * unfilled img.width img.height fillColor img.data + 2 =
        (5 * unfilled img.width img.height fillColor img.data + 1) + 1 := rfl
    rw [hfuel, floodLoop, if_pos hout, floodLoop]

/-- Instance of `floodFill_no_failure_mode` at an out-of-bounds seed. -/
theorem floodFill_no_failure_mode_witness :
    floodFill ⟨2, 1, [1, 2, 3, 4, 5, 6, 7, 8]⟩ 99 0 ⟨0, 0, 0, 0⟩ ⟨9, 9, 9, 9⟩
        50 = some (0, [1, 2, 3, 4, 5, 6, 7, 8]) :=
  (floodFill_no_failure_mode ⟨2, 1, [1, 2, 3, 4, 5, 6, 7, 8]⟩ 99 0
    ⟨0, 0, 0, 0⟩ ⟨9, 9, 9, 9⟩ 50 (by decide) (by decide) (by decide)).2
    (by norm_num)

theorem jsByte_natCast_one (data : List Nat) (i : Nat) :
    jsByte data ((i : Int) + 1) = data[i + 1]? := by
  have h : ((i : Int) + 1) = ((i + 1 : Nat) : Int) := by push_cast; ring
  rw [h, jsByte_natCast]

theorem jsByte_natCast_two (data : List Nat) (i : Nat) :
    jsByte data ((i : Int) + 2) = data[i + 2]? := by
  have h : ((i : Int) + 2) = ((i + 2 : Nat) : Int) := by push_cast; ring
  rw [h, jsByte_natCast]

/-- If the seed pixel already shows the fill color's (r,g,b), `floodFill`
takes the early return: 0 changed pixels, buffer untouched. -/
theorem floodFill_early_of_fill (img : ImageBuffer) (sx sy : Int)
    (tc fc : Color) (tol : ℚ) (hx0 : 0 ≤ sx) (hy0 : 0 ≤ sy)
    (hfill : isFillPx img.data fc (sy.toNat * img.width + sx.toNat) = true) :
    floodFill img sx sy tc fc tol = some (0, img.data) := by
  have hsi : (sy * (img.width : Int) + sx) * 4 =
      (((sy.toNat * img.width + sx.toNat) * 4 : Nat) : Int) := by
    push_cast [Int.toNat_of_nonneg hx0, Int.toNat_of_nonneg hy0]
    ring
  unfold isFillPx at hfill
  have hread : readRGB img.data
      (((sy.toNat * img.width + sx.toNat) * 4 : Nat) : Int) =
      some (fc.r, fc.g, fc.b) := beq_iff_eq.mp hfill
  obtain ⟨e0, e1, e2⟩ :=
    (readRGB_eq_some_iff img.data _ fc.r fc.g fc.b).mp hread
  unfold floodFill
  dsimp only
  rw [hsi]
  rw [if_pos (by simp only [jsEq, jsByte_natCast, jsByte_natCast_one,
    jsByte_natCast_two, e0, e1, e2, beq_self_eq_true, Bool.and_self])]

/-- Claim C6: flood fill is idempotent. For an in-bounds seed and a genuine
0–255 fill color, if the first call returns `(c1, d1)`, a second call on
the resulting buffer with the same seed, fill color and tolerance returns
0 changed pixels and leaves the buffer (`d1`) unchanged. -/
theorem floodFill_idempotent (img : ImageBuffer) (startX startY : Int)
    (targetColor fillColor : Color) (tolerance : ℚ)
    (hx0 : 0 ≤ startX) (hx1 : startX < (img.width : Int))
    (hy0 : 0 ≤ startY) (hy1 : startY < (img.height : Int))
    (hr : fillColor.r ≤ 255) (hg : fillColor.g ≤ 255) (hb : fillColor.b ≤ 255)
    (c1 : Nat) (d1 : List Nat)
    (h1 : floodFill img startX startY targetColor fillColor tolerance =
      some (c1, d1)) :
    floodFill ⟨img.width, img.height, d1⟩ startX startY targetColor fillColor
      tolerance = some (0, d1) := by
  have hsi : (startY * (img.width : Int) + startX) * 4 =
      (((startY.toNat * img.width + startX.toNat) * 4 : Nat) : Int) := by
    push_cast [Int.toNat_of_nonneg hx0, Int.toNat_of_nonneg hy0]
    ring
  have hbound : ¬(startX < 0 ∨ (img.width : Int) ≤ startX ∨ startY < 0 ∨
      (img.height : Int) ≤ startY) := by
    push_neg
    exact ⟨hx0, hx1, hy0, hy1⟩
  have key : (c1 = 0 ∧ d1 = img.data) ∨
      isFillPx d1 fillColor (startY.toNat * img.width + startX.toNat) =
        true := by
    unfold floodFill at h1
    dsimp only at h1
    rw [hsi] at h1
    split_ifs at h1 with hE
    · have hab : 0 = c1 ∧ img.data = d1 := by simpa using h1
      exact Or.inl ⟨hab.1.symm, hab.2.symm⟩
    · have hfuel : 5 * unfilled img.width img.height fillColor img.data + 2 =
          (5 * unfilled img.width img.height fillColor img.data + 1) + 1 := rfl
      rw [hfuel, floodLoop, if_neg hbound] at h1
      dsimp only at h1
      rcases hsc : readRGB img.data
          (((startY.toNat * img.width + startX.toNat) * 4 : Nat) : Int)
        with _ | s
      · rw [hsc, isSimilarColor_none, if_pos rfl, floodLoop] at h1
        have hab : 0 = c1 ∧ img.data = d1 := by simpa using h1
        exact Or.inl ⟨hab.1.symm, hab.2.symm⟩
      · obtain ⟨s1, s2, s3⟩ := s
        by_cases htol : (0 : ℚ) ≤ tolerance
        · obtain ⟨e0, e1, e2⟩ :=
            (readRGB_eq_some_iff img.data _ s1 s2 s3).mp hsc
          simp only [jsEq, jsByte_natCast, jsByte_natCast_one,
            jsByte_natCast_two, e0, e1, e2, Bool.and_eq_true,
            beq_iff_eq, Option.some.injEq] at hE
          have hsimT : isSimilarColor (some (s1, s2, s3)) (some (s1, s2, s3))
              tolerance = true := by
            unfold isSimilarColor
            dsimp only
            rw [decide_eq_true_eq]
            refine ⟨htol, ?_⟩
            have h0 : (((s1 : ℤ) - s1) ^ 2 + ((s2 : ℤ) - s2) ^ 2 +
                ((s3 : ℤ) - s3) ^ 2) = 0 := by ring
            rw [h0]
            simpa using sq_nonneg tolerance
          have hfillF : (some (s1, s2, s3) ==
              some (fillColor.r, fillColor.g, fillColor.b)) = false := by
            simp only [beq_eq_false_iff_ne, ne_eq, Option.some.injEq,
              Prod.mk.injEq, not_and]
            intro ha hbc hcc
            exact hE ⟨⟨ha, hbc⟩, hcc⟩
          rw [hsc, if_neg (by simp [hsimT]), if_neg (by simp [hfillF])] at h1
          have hlen : (startY.toNat * img.width + startX.toNat) * 4 + 2 <
              img.data.length := readRGB_isSome_lt hsc
          exact Or.inr (floodLoop_preserves_fill img.width img.height _
            fillColor tolerance hr hg hb _ _ _ _ c1 d1 h1 _
            (isFillPx_writePx_self img.data fillColor _ hlen hr hg hb))
        · have hsimF : isSimilarColor (some (s1, s2, s3)) (some (s1, s2, s3))
              tolerance = false := by
            unfold isSimilarColor
            dsimp only
            simp only [decide_eq_false_iff_not]
            exact fun hcon => htol hcon.1
          rw [hsc, if_pos hsimF, floodLoop] at h1
          have hab : 0 = c1 ∧ img.data = d1 := by simpa using h1
          exact Or.inl ⟨hab.1.symm, hab.2.symm⟩
  rcases key with ⟨hc, hd⟩ | hfill
  · subst hc
    subst hd
    exact h1
  · exact floodFill_early_of_fill ⟨img.width, img.height, d1⟩ startX startY
      targetColor fillColor tolerance hx0 hy0 hfill

/-- Instance of `floodFill_idempotent` on a concrete 1×1 buffer. -/
theorem floodFill_idempotent_witness :
    floodFill ⟨1, 1, [5, 6, 7, 8]⟩ 0 0 ⟨0, 0, 0, 0⟩ ⟨5, 6, 7, 8⟩ 0 =
      some (0, [5, 6, 7, 8]) :=
  floodFill_idempotent ⟨1, 1, [10, 10, 10, 255]⟩ 0 0 ⟨0, 0, 0, 0⟩ ⟨5, 6, 7, 8⟩
    0 (by decide) (by decide) (by decide) (by decide) (by decide) (by decide)
    (by decide) 1 [5, 6, 7, 8] (by decide)

/-- Claim C10: `floodFill` compares colors only on (r,g,b), never alpha.
First part: when the seed pixel's r, g, b bytes already equal the fill
color's — its alpha byte being arbitrary, possibly different from the fill
color's alpha — the call returns 0 changed pixels and leaves the buffer
entirely unchanged. Second part: whenever a call (with a genuine 0–255
fill color) changes the buffer at all, some pixel's (r,g,b) bytes change,
so no invocation ever changes only alpha bytes. -/
theorem floodFill_ignores_alpha :
    (∀ (img : ImageBuffer) (sx sy : Int) (tc fc : Color) (tol : ℚ),
      0 ≤ sx → 0 ≤ sy →
      isFillPx img.data fc (sy.toNat * img.width + sx.toNat) = true →
      floodFill img sx sy tc fc tol = some (0, img.data)) ∧
    (∀ (img : ImageBuffer) (sx sy : Int) (tc fc : Color) (tol : ℚ)
        (cfin : Nat) (dfin : List Nat),
      fc.r ≤ 255 → fc.g ≤ 255 → fc.b ≤ 255 →
      floodFill img sx sy tc fc tol = some (cfin, dfin) →
      dfin ≠ img.data →
      ∃ p : Nat, readRGB img.data ((p * 4 : Nat) : Int) ≠
        readRGB dfin ((p * 4 : Nat) : Int)) := by
  constructor
  · intro img sx sy tc fc tol hx0 hy0 hfill
    exact floodFill_early_of_fill img sx sy tc fc tol hx0 hy0 hfill
  · intro img sx sy tc fc tol cfin dfin hr hg hb h hne
    unfold floodFill at h
    dsimp only at h
    split_ifs at h with hE
    · have hab : 0 = cfin ∧ img.data = dfin := by simpa using h
      exact absurd hab.2.symm hne
    · rcases floodLoop_changes_rgb img.width img.height _ fc tol hr hg hb
        _ _ _ _ cfin dfin h with hsame | ⟨p, hp1, hp2⟩
      · exact absurd hsame hne
      · refine ⟨p, ?_⟩
        unfold isFillPx at hp1 hp2
        intro hcontra
        rw [hcontra] at hp1
        rw [hp1] at hp2
        exact Bool.false_ne_true hp2

/-- Instance of `floodFill_ignores_alpha`: a seed whose (r,g,b) equal the
fill color's but whose alpha differs is left alone (left conjunct), and the
1×1 fill that does change the buffer changes a pixel's (r,g,b) (right
conjunct). -/
theorem floodFill_ignores_alpha_witness :
    floodFill ⟨1, 1, [5, 6, 7, 99]⟩ 0 0 ⟨0, 0, 0, 0⟩ ⟨5, 6, 7, 8⟩ 3 =
      some (0, [5, 6, 7, 99]) ∧
    ∃ p : Nat, readRGB [10, 10, 10, 255] ((p * 4 : Nat) : Int) ≠
      readRGB [5, 6, 7, 8] ((p * 4 : Nat) : Int) :=
  ⟨floodFill_ignores_alpha.1 ⟨1, 1, [5, 6, 7, 99]⟩ 0 0 ⟨0, 0, 0, 0⟩
      ⟨5, 6, 7, 8⟩ 3 (by decide) (by decide) (by decide),
   floodFill_ignores_alpha.2 ⟨1, 1, [10, 10, 10, 255]⟩ 0 0 ⟨0, 0, 0, 0⟩
      ⟨5, 6, 7, 8⟩ 0 1 [5, 6, 7, 8] (by decide) (by decide) (by decide)
      (by decide) (by decide)⟩

/-! # Detector theorems -/

theorem buildPolygons_sources (zoom : ℕ) (tileX tileY : ℤ) :
    ∀ clusters ring, ring ∈ buildPolygons zoom tileX tileY clusters →
      ∃ c ∈ clusters, 5 ≤ c.length ∧ ring = ringOf zoom tileX tileY c := by
  intro clusters
  induction clusters with
  | nil =>
    intro ring h
    rw [buildPolygons] at h
    exact absurd h (List.not_mem_nil _)
  | cons c cs ih =>
    intro ring h
    rw [buildPolygons] at h
    by_cases hlen : c.length < 5
    · rw [if_pos hlen] at h
      obtain ⟨c', hc', h5, heq⟩ := ih ring h
      exact ⟨c', List.mem_cons_of_mem _ hc', h5, heq⟩
    · rw [if_neg hlen] at h
      rcases List.mem_cons.mp h with rfl | h'
      · exact ⟨c, List.mem_cons_self _ _, by omega, rfl⟩
      · obtain ⟨c', hc', h5, heq⟩ := ih ring h'
        exact ⟨c', List.mem_cons_of_mem _ hc', h5, heq⟩

theorem featuresFrom_ring_mem (clusters : List (List Px)) :
    ∀ polys i f, f ∈ featuresFrom clusters i polys → f.ring ∈ polys := by
  intro polys
  induction polys with
  | nil =>
    intro i f h
    rw [featuresFrom] at h
    exact absurd h (List.not_mem_nil _)
  | cons ring rest ih =>
    intro i f h
    rw [featuresFrom] at h
    rcases List.mem_cons.mp h with rfl | h'
    · exact List.mem_cons_self _ _
    · exact List.mem_cons_of_mem _ (ih (i + 1) f h')

/-- Claim C9: every feature of the detector's polygon collection originates
from a cluster of at least 5 pixels — its ring is the converted
bounding-box ring of such a cluster; clusters with fewer than 5 pixels
never produce one. -/
theorem features_from_big_clusters (zoom : ℕ) (tileX tileY : ℤ)
    (clusters : List (List Px)) :
    ∀ f ∈ buildFeatures zoom tileX tileY clusters,
      ∃ c ∈ clusters, 5 ≤ c.length ∧ f.ring = ringOf zoom tileX tileY c := by
  intro f hf
  exact buildPolygons_sources zoom tileX tileY clusters f.ring
    (featuresFrom_ring_mem clusters _ 0 f hf)

/-- Instance of `features_from_big_clusters` on a single 5-pixel cluster. -/
theorem features_from_big_clusters_witness :
    ∃ c ∈ [[((0 : Int), (0 : Int)), (0, 1), (0, 2), (1, 0), (1, 1)]],
      5 ≤ c.length ∧
      (Feature.mk (ringOf 18 0 0 [((0 : Int), (0 : Int)), (0, 1), (0, 2),
        (1, 0), (1, 1)]) 1 5).ring = ringOf 18 0 0 c :=
  features_from_big_clusters 18 0 0
    [[((0 : Int), (0 : Int)), (0, 1), (0, 2), (1, 0), (1, 1)]]
    (Feature.mk (ringOf 18 0 0 [((0 : Int), (0 : Int)), (0, 1), (0, 2),
      (1, 0), (1, 1)]) 1 5)
    (List.mem_singleton.mpr rfl)

/-- Claim C1 (code bug): the `pixelCount` tag does not equal the source
cluster's size once a small cluster precedes a surviving one. On the input
below, clustering yields clusters of sizes [4, 6]; only the 6-pixel cluster
survives the ≥5 filter, and the single emitted feature's ring is indeed the
6-pixel cluster's ring — but its `pixelCount` is `clusters[0].length = 4`,
because the source indexes the unfiltered cluster array with the filtered
polygon index (`pixelCount: clusters[index]?.length || 0`). -/
theorem pixelCount_mistagged :
    ((clusterPixels [((0 : Int), (0 : Int)), (0, 1), (0, 2), (0, 3),
        (10, 0), (10, 1), (10, 2), (10, 3), (10, 4), (10, 5)] 3).map
      fun cs => cs.map List.length) = some [4, 6] ∧
    ((clusterPixels [((0 : Int), (0 : Int)), (0, 1), (0, 2), (0, 3),
        (10, 0), (10, 1), (10, 2), (10, 3), (10, 4), (10, 5)] 3).map
      fun cs => (buildFeatures 18 0 0 cs).map fun f => f.pixelCount) =
      some [4] ∧
    ((clusterPixels [((0 : Int), (0 : Int)), (0, 1), (0, 2), (0, 3),
        (10, 0), (10, 1), (10, 2), (10, 3), (10, 4), (10, 5)] 3).map
      fun cs => (buildFeatures 18 0 0 cs).map fun f => f.ring) =
      some [ringOf 18 0 0 [((10 : Int), (0 : Int)), (10, 1), (10, 2),
        (10, 3), (10, 4), (10, 5)]] :=
  ⟨by decide, by decide, rfl⟩

/-- Claim C3 (counterexample): two detector invocations that fail for two
different causes — tile fetch/decode failure versus an out-of-bounds marker
pixel — both return the same JavaScript `null`; the caller cannot tell the
causes apart. -/
theorem detect_failures_indistinguishable :
    detectBuildingsByColor none 18 0 0 0 0 = DetectResult.nullResult ∧
    detectBuildingsByColor (some ⟨1, 1, [255, 255, 255, 255]⟩) 18 0 0 999 0 =
      DetectResult.nullResult :=
  ⟨rfl, rfl⟩

/-- Claim C3 (amended): every failure cause among fetch failure, decode
failure, out-of-bounds marker pixel and no nearby candidates collapses to
the single value `null` — they are mutually indistinguishable; the only
distinguishable degenerate outcome is "candidates but no cluster of ≥ 5
pixels", which yields an empty feature collection instead of `null`. -/
theorem detect_failure_surface :
    (∀ (zoom : ℕ) (tileX tileY : ℤ) (pixelX pixelY : Int),
      detectBuildingsByColor none zoom tileX tileY pixelX pixelY =
        DetectResult.nullResult) ∧
    (∀ (img : ImageBuffer) (zoom : ℕ) (tileX tileY : ℤ)
        (pixelX pixelY : Int),
      (pixelX < 0 ∨ (img.width : Int) ≤ pixelX ∨ pixelY < 0 ∨
        (img.height : Int) ≤ pixelY) →
      detectBuildingsByColor (some img) zoom tileX tileY pixelX pixelY =
        DetectResult.nullResult) ∧
    (∀ (img : ImageBuffer) (zoom : ℕ) (tileX tileY : ℤ)
        (pixelX pixelY : Int),
      ¬(pixelX < 0 ∨ (img.width : Int) ≤ pixelX ∨ pixelY < 0 ∨
        (img.height : Int) ≤ pixelY) →
      ((scanClass img "building").filter
        (fun p => withinDist p (pixelX, pixelY) 30)).isEmpty = true →
      detectBuildingsByColor (some img) zoom tileX tileY pixelX pixelY =
        DetectResult.nullResult) ∧
    (detectBuildingsByColor (some ⟨1, 1, [255, 230, 190, 255]⟩) 18 0 0 0 0 =
        DetectResult.collection [] ∧
      DetectResult.collection [] ≠ DetectResult.nullResult) := by
  refine ⟨fun _ _ _ _ _ => rfl, ?_, ?_, rfl, fun h => DetectResult.noConfusion h⟩
  · intro img zoom tileX tileY pixelX pixelY hout
    unfold detectBuildingsByColor
    dsimp only
    rw [if_pos hout]
  · intro img zoom tileX tileY pixelX pixelY hbound hempty
    unfold detectBuildingsByColor
    dsimp only
    rw [if_neg hbound, if_pos hempty]

/-- Instance of `detect_failure_surface` at concrete inputs: out-of-bounds
marker and no-candidates both return `null`. -/
theorem detect_failure_surface_witness :
    detectBuildingsByColor (some ⟨1, 1, [255, 255, 255, 255]⟩) 18 0 0 5 0 =
      DetectResult.nullResult ∧
    detectBuildingsByColor (some ⟨1, 1, [255, 255, 255, 255]⟩) 18 0 0 0 0 =
      DetectResult.nullResult :=
  ⟨detect_failure_surface.2.1 ⟨1, 1, [255, 255, 255, 255]⟩ 18 0 0 5 0
      (by decide),
   detect_failure_surface.2.2.1 ⟨1, 1, [255, 255, 255, 255]⟩ 18 0 0 0 0
      (by decide) (by decide)⟩

/-! # Coordinate transform theorems

The forward map floors twice (tile index, then in-tile pixel offset); the
combined quantity `tileX·256 + pixelX` is `⌊X·256⌋` for `X` the unfloored
tile abscissa, which pins the recovered coordinate to within one pixel step.
The latitude side composes the strictly decreasing inverse
`y ↦ (180/π)·arctan(sinh(π(1−2y/(n·256))))` with the exact identity
`arctan(sinh(log(tan φ + 1/cos φ))) = φ` on `|φ| < π/2`. -/

theorem floor_pixel_le (z : ℝ) :
    (⌊z⌋ : ℝ) * 256 + (⌊(z - ⌊z⌋) * 256⌋ : ℝ) ≤ z * 256 := by
  have h1 : (⌊(z - ⌊z⌋) * 256⌋ : ℝ) ≤ (z - ⌊z⌋) * 256 := Int.floor_le _
  linarith

theorem floor_pixel_gt (z : ℝ) :
    z * 256 - 1 < (⌊z⌋ : ℝ) * 256 + (⌊(z - ⌊z⌋) * 256⌋ : ℝ) := by
  have h2 : (z - ⌊z⌋) * 256 - 1 < (⌊(z - ⌊z⌋) * 256⌋ : ℝ) :=
    Int.sub_one_lt_floor _
  linarith

/-- The latitude inverse is strictly decreasing in the pixel row. -/
theorem invLat_lt_invLat (zoom : ℕ) {a b : ℝ} (hab : a < b) :
    180 / Real.pi * Real.arctan (Real.sinh (Real.pi *
      (1 - 2 * b / ((2 : ℝ) ^ zoom * 256)))) <
    180 / Real.pi * Real.arctan (Real.sinh (Real.pi *
      (1 - 2 * a / ((2 : ℝ) ^ zoom * 256)))) := by
  have hn : (0 : ℝ) < (2 : ℝ) ^ zoom * 256 := by positivity
  have h1 : Real.pi * (1 - 2 * b / ((2 : ℝ) ^ zoom * 256)) <
      Real.pi * (1 - 2 * a / ((2 : ℝ) ^ zoom * 256)) := by
    have hd : 2 * a / ((2 : ℝ) ^ zoom * 256) <
        2 * b / ((2 : ℝ) ^ zoom * 256) :=
      (div_lt_div_iff_of_pos_right hn).mpr (by linarith)
    exact mul_lt_mul_of_pos_left (by linarith) Real.pi_pos
  exact mul_lt_mul_of_pos_left
    (Real.arctan_strictMono (Real.sinh_lt_sinh.mpr h1)) (by positivity)

theorem invLat_le_invLat (zoom : ℕ) {a b : ℝ} (hab : a ≤ b) :
    180 / Real.pi * Real.arctan (Real.sinh (Real.pi *
      (1 - 2 * b / ((2 : ℝ) ^ zoom * 256)))) ≤
    180 / Real.pi * Real.arctan (Real.sinh (Real.pi *
      (1 - 2 * a / ((2 : ℝ) ^ zoom * 256)))) := by
  rcases eq_or_lt_of_le hab with rfl | h
  · exact le_refl _
  · exact (invLat_lt_invLat zoom h).le

/-- The inverse latitude formula is exact on the unfloored Mercator
ordinate: `(180/π)·arctan(sinh(π(1 − 2·mercY φ))) = φ` for `|φ| < 85.05`. -/
theorem invLat_mercY (lat : ℝ) (hlat : |lat| < 85.05) :
    180 / Real.pi * Real.arctan (Real.sinh (Real.pi *
      (1 - 2 * mercY lat))) = lat := by
  have hπ := Real.pi_pos
  have hπ0 : Real.pi ≠ 0 := Real.pi_ne_zero
  rw [abs_lt] at hlat
  have hθu : lat * Real.pi / 180 < Real.pi / 2 := by
    nlinarith [mul_pos (show (0 : ℝ) < 90 - lat by linarith) hπ]
  have hθl : -(Real.pi / 2) < lat * Real.pi / 180 := by
    nlinarith [mul_pos (show (0 : ℝ) < lat + 90 by linarith) hπ]
  have hcos : 0 < Real.cos (lat * Real.pi / 180) :=
    Real.cos_pos_of_mem_Ioo ⟨hθl, hθu⟩
  have harg : Real.pi * (1 - 2 * mercY lat) =
      Real.log (Real.tan (lat * Real.pi / 180) +
        1 / Real.cos (lat * Real.pi / 180)) := by
    unfold mercY
    field_simp
    ring
  have hsqrt : Real.sqrt (1 + Real.tan (lat * Real.pi / 180) ^ 2) =
      (Real.cos (lat * Real.pi / 180))⁻¹ := by
    rw [← Real.inv_sqrt_one_add_tan_sq hcos, inv_inv]
  have hlog : Real.log (Real.tan (lat * Real.pi / 180) +
      1 / Real.cos (lat * Real.pi / 180)) =
      Real.arsinh (Real.tan (lat * Real.pi / 180)) := by
    unfold Real.arsinh
    rw [hsqrt, one_div]
  rw [harg, hlog, Real.sinh_arsinh, Real.arctan_tan hθl hθu]
  field_simp
  ring

/-- Longitude round-trip: the recovered longitude sits within one pixel's
angular width (`360/(n·256)` degrees) below the original. -/
theorem roundtrip_lon (lon : ℝ) (zoom : ℕ) :
    0 ≤ lon - tileToGeoLon zoom ⌊(lon + 180) / 360 * (2 : ℝ) ^ zoom⌋
        ⌊((lon + 180) / 360 * (2 : ℝ) ^ zoom -
          ⌊(lon + 180) / 360 * (2 : ℝ) ^ zoom⌋) * 256⌋ ∧
    lon - tileToGeoLon zoom ⌊(lon + 180) / 360 * (2 : ℝ) ^ zoom⌋
        ⌊((lon + 180) / 360 * (2 : ℝ) ^ zoom -
          ⌊(lon + 180) / 360 * (2 : ℝ) ^ zoom⌋) * 256⌋ <
      360 / ((2 : ℝ) ^ zoom * 256) := by
  have hn : (0 : ℝ) < (2 : ℝ) ^ zoom := by positivity
  have hn256 : (0 : ℝ) < (2 : ℝ) ^ zoom * 256 := by positivity
  have hS_le := floor_pixel_le ((lon + 180) / 360 * (2 : ℝ) ^ zoom)
  have hS_gt := floor_pixel_gt ((lon + 180) / 360 * (2 : ℝ) ^ zoom)
  have heq : lon - tileToGeoLon zoom ⌊(lon + 180) / 360 * (2 : ℝ) ^ zoom⌋
      ⌊((lon + 180) / 360 * (2 : ℝ) ^ zoom -
        ⌊(lon + 180) / 360 * (2 : ℝ) ^ zoom⌋) * 256⌋ =
      ((lon + 180) / 360 * (2 : ℝ) ^ zoom * 256 -
          ((⌊(lon + 180) / 360 * (2 : ℝ) ^ zoom⌋ : ℝ) * 256 +
            (⌊((lon + 180) / 360 * (2 : ℝ) ^ zoom -
              ⌊(lon + 180) / 360 * (2 : ℝ) ^ zoom⌋) * 256⌋ : ℝ))) * 360 /
        ((2 : ℝ) ^ zoom * 256) := by
    unfold tileToGeoLon
    field_simp
    ring
  constructor
  · rw [heq]
    exact div_nonneg (mul_nonneg (by linarith) (by norm_num)) hn256.le
  · rw [heq, div_lt_div_iff_of_pos_right hn256]
    nlinarith

/-- Latitude round-trip: the recovered latitude sits at most one pixel row's
angular height above the original. -/
theorem roundtrip_lat (lat : ℝ) (zoom : ℕ) (hlat : |lat| < 85.05) :
    0 ≤ tileToGeoLat zoom ⌊mercY lat * (2 : ℝ) ^ zoom⌋
        ⌊(mercY lat * (2 : ℝ) ^ zoom - ⌊mercY lat * (2 : ℝ) ^ zoom⌋) * 256⌋ -
      lat ∧
    tileToGeoLat zoom ⌊mercY lat * (2 : ℝ) ^ zoom⌋
        ⌊(mercY lat * (2 : ℝ) ^ zoom - ⌊mercY lat * (2 : ℝ) ^ zoom⌋) * 256⌋ -
      lat <
      tileToGeoLat zoom ⌊mercY lat * (2 : ℝ) ^ zoom⌋
          ⌊(mercY lat * (2 : ℝ) ^ zoom -
            ⌊mercY lat * (2 : ℝ) ^ zoom⌋) * 256⌋ -
        tileToGeoLat zoom ⌊mercY lat * (2 : ℝ) ^ zoom⌋
          (⌊(mercY lat * (2 : ℝ) ^ zoom -
            ⌊mercY lat * (2 : ℝ) ^ zoom⌋) * 256⌋ + 1) := by
  have hT_le := floor_pixel_le (mercY lat * (2 : ℝ) ^ zoom)
  have hT_gt := floor_pixel_gt (mercY lat * (2 : ℝ) ^ zoom)
  have hlat_id : 180 / Real.pi * Real.arctan (Real.sinh (Real.pi *
      (1 - 2 * (mercY lat * (2 : ℝ) ^ zoom * 256) /
        ((2 : ℝ) ^ zoom * 256)))) = lat := by
    have hn0 : ((2 : ℝ) ^ zoom) ≠ 0 := by positivity
    have harg : 2 * (mercY lat * (2 : ℝ) ^ zoom * 256) /
        ((2 : ℝ) ^ zoom * 256) = 2 * mercY lat := by
      field_simp
      ring
    rw [harg]
    exact invLat_mercY lat hlat
  constructor
  · have h := invLat_le_invLat zoom hT_le
    rw [hlat_id] at h
    unfold tileToGeoLat
    linarith
  · have h := invLat_lt_invLat zoom
      (show mercY lat * (2 : ℝ) ^ zoom * 256 <
        (⌊mercY lat * (2 : ℝ) ^ zoom⌋ : ℝ) * 256 +
          ((⌊(mercY lat * (2 : ℝ) ^ zoom -
            ⌊mercY lat * (2 : ℝ) ^ zoom⌋) * 256⌋ : ℝ) + 1) from by linarith)
    rw [hlat_id] at h
    have hcast : ((⌊(mercY lat * (2 : ℝ) ^ zoom -
        ⌊mercY lat * (2 : ℝ) ^ zoom⌋) * 256⌋ + 1 : ℤ) : ℝ) =
        (⌊(mercY lat * (2 : ℝ) ^ zoom -
          ⌊mercY lat * (2 : ℝ) ^ zoom⌋) * 256⌋ : ℝ) + 1 := by
      push_cast
      ring
    unfold tileToGeoLat
    rw [hcast]
    linarith

/-- Claim C8: for `|lat| < 85.05`, `lon ∈ [−180, 180]` and any zoom, the
inverse transform applied to `geoToTile lat lon zoom` recovers `(lat, lon)`
to within one pixel: the longitude drops by less than the (uniform) pixel
width `360/(2^zoom·256)` degrees, and the latitude rises by less than the
angular height of the very pixel row the point was quantized to. -/
theorem geoToTile_roundtrip (lat lon : ℝ) (zoom : ℕ)
    (hlat : |lat| < 85.05) (_hlon1 : -180 ≤ lon) (_hlon2 : lon ≤ 180) :
    0 ≤ lon - tileToGeoLon zoom (geoToTile lat lon zoom).1
        (geoToTile lat lon zoom).2.2.1 ∧
    lon - tileToGeoLon zoom (geoToTile lat lon zoom).1
        (geoToTile lat lon zoom).2.2.1 < 360 / ((2 : ℝ) ^ zoom * 256) ∧
    0 ≤ tileToGeoLat zoom (geoToTile lat lon zoom).2.1
        (geoToTile lat lon zoom).2.2.2 - lat ∧
    tileToGeoLat zoom (geoToTile lat lon zoom).2.1
        (geoToTile lat lon zoom).2.2.2 - lat <
      tileToGeoLat zoom (geoToTile lat lon zoom).2.1
          (geoToTile lat lon zoom).2.2.2 -
        tileToGeoLat zoom (geoToTile lat lon zoom).2.1
          ((geoToTile lat lon zoom).2.2.2 + 1) := by
  have h1 : (geoToTile lat lon zoom).1 =
      ⌊(lon + 180) / 360 * (2 : ℝ) ^ zoom⌋ := rfl
  have h2 : (geoToTile lat lon zoom).2.1 =
      ⌊mercY lat * (2 : ℝ) ^ zoom⌋ := rfl
  have h3 : (geoToTile lat lon zoom).2.2.1 =
      ⌊((lon + 180) / 360 * (2 : ℝ) ^ zoom -
        ⌊(lon + 180) / 360 * (2 : ℝ) ^ zoom⌋) * 256⌋ := rfl
  have h4 : (geoToTile lat lon zoom).2.2.2 =
      ⌊(mercY lat * (2 : ℝ) ^ zoom -
        ⌊mercY lat * (2 : ℝ) ^ zoom⌋) * 256⌋ := rfl
  rw [h1, h2, h3, h4]
  obtain ⟨l1, l2⟩ := roundtrip_lon lon zoom
  obtain ⟨l3, l4⟩ := roundtrip_lat lat zoom hlat
  exact ⟨l1, l2, l3, l4⟩

/-- Instance of `geoToTile_roundtrip` at the origin, zoom 0. -/
theorem geoToTile_roundtrip_witness :
    0 ≤ (0 : ℝ) - tileToGeoLon 0 (geoToTile 0 0 0).1
        (geoToTile 0 0 0).2.2.1 ∧
    (0 : ℝ) - tileToGeoLon 0 (geoToTile 0 0 0).1 (geoToTile 0 0 0).2.2.1 <
      360 / ((2 : ℝ) ^ (0 : ℕ) * 256) ∧
    0 ≤ tileToGeoLat 0 (geoToTile 0 0 0).2.1 (geoToTile 0 0 0).2.2.2 -
      (0 : ℝ) ∧
    tileToGeoLat 0 (geoToTile 0 0 0).2.1 (geoToTile 0 0 0).2.2.2 - (0 : ℝ) <
      tileToGeoLat 0 (geoToTile 0 0 0).2.1 (geoToTile 0 0 0).2.2.2 -
        tileToGeoLat 0 (geoToTile 0 0 0).2.1 ((geoToTile 0 0 0).2.2.2 + 1) :=
  geoToTile_roundtrip 0 0 0 (by norm_num) (by norm_num) (by norm_num)

end BuildingMap
